import Mathlib

/-! protosampler: MIDI message framer and port reader loop

A shallow embedding of `print_byte` and of the read loop of `main`
(`src/protosampler.c`), with the properties of the specification stated
over it.

Conventions.
* An `unsigned char` is a `Nat` below 256; statements carry the bound where
  it matters.
* The function-local `static` of `print_byte` is passed and returned
  explicitly.
* `stdout` is the `String` of everything written so far.
* An `int` is an `Int` kept in the 32-bit range by `int_wrap`.
* The answers of the system (`poll`, `errno`, the ALSA calls, the flag `stop`
  set by the signal handler) are inputs: one `Pass` for each pass through the
  body of the read loop.
-/

namespace Protosampler

set_option maxRecDepth 100000

/-! ## print_byte -/

/-- The anonymous `enum` of `print_byte` (lines 288-296).  The specification
calls these Unknown, OneParamExpected, OneParamRunning, TwoParamFirst,
TwoParamSecond, TwoParamFirstRunning and SystemExclusive, in this order. -/
inductive State where
  | STATE_UNKNOWN
  | STATE_1PARAM
  | STATE_1PARAM_CONTINUE
  | STATE_2PARAM_1
  | STATE_2PARAM_2
  | STATE_2PARAM_1_CONTINUE
  | STATE_SYSEX
  deriving DecidableEq, Repr

open State

/-- What `print_byte` has computed when it reaches its final `printf`: the new
value of the static `state` and the two locals `newline`, `running_status`. -/
structure Ctl where
  state : State
  newline : Bool
  running_status : Bool
  deriving DecidableEq, Repr

/-- The `switch (byte)` of the branch `byte >= 0xf0` (lines 302-323), entered
with `newline = 1`. -/
def system_common (state : State) (byte : Nat) : Ctl :=
  if byte = 0xf0 then ⟨STATE_SYSEX, true, false⟩
  else if byte = 0xf1 ∨ byte = 0xf3 then ⟨STATE_1PARAM, true, false⟩
  else if byte = 0xf2 then ⟨STATE_2PARAM_1, true, false⟩
  else if byte = 0xf4 ∨ byte = 0xf5 ∨ byte = 0xf6 then ⟨STATE_UNKNOWN, true, false⟩
  else if byte = 0xf7 then ⟨STATE_UNKNOWN, decide (state ≠ STATE_SYSEX), false⟩
  else ⟨state, true, false⟩

/-- The branch `b < 0x80` (lines 330-355): `newline = state == STATE_UNKNOWN`,
then the `switch (state)`. -/
def data_byte (state : State) : Ctl :=
  let newline := decide (state = STATE_UNKNOWN)
  match state with
  | STATE_1PARAM => ⟨STATE_1PARAM_CONTINUE, newline, false⟩
  | STATE_1PARAM_CONTINUE => ⟨STATE_1PARAM_CONTINUE, newline, true⟩
  | STATE_2PARAM_1 => ⟨STATE_2PARAM_2, newline, false⟩
  | STATE_2PARAM_2 => ⟨STATE_2PARAM_1_CONTINUE, newline, false⟩
  | STATE_2PARAM_1_CONTINUE => ⟨STATE_2PARAM_2, newline, true⟩
  | STATE_UNKNOWN => ⟨STATE_UNKNOWN, newline, false⟩
  | STATE_SYSEX => ⟨STATE_SYSEX, newline, false⟩

/-- The `if / else if` chain of `print_byte` (lines 297-355), without the
output. -/
def print_byte_ctl (state : State) (byte : Nat) : Ctl :=
  if byte ≥ 0xf8 then ⟨state, true, false⟩
  else if byte ≥ 0xf0 then system_common state byte
  else if byte ≥ 0x80 then
    if byte ≥ 0xc0 ∧ byte ≤ 0xdf then ⟨STATE_1PARAM, true, false⟩
    else ⟨STATE_2PARAM_1, true, false⟩
  else data_byte state

/-- One uppercase hexadecimal digit. -/
def hex_digit (n : Nat) : Char :=
  if n < 10 then Char.ofNat (48 + n) else Char.ofNat (55 + n)

/-- The conversion `%02X` applied to an `unsigned char`: two uppercase
hexadecimal digits. -/
def hex (byte : Nat) : String :=
  String.mk [hex_digit (byte / 16), hex_digit (byte % 16)]

/-- The text `print_byte` writes: `fputs("\n  ", stdout)` when
`running_status` is set (line 354), then
`printf("%c%02X", newline ? '\n' : ' ', byte)` (line 356). -/
def print_text (c : Ctl) (byte : Nat) : String :=
  (if c.running_status then "\n  " else "") ++
    ((if c.newline then "\n" else " ") ++ hex byte)

/-- The function `print_byte`: from the static `state` and the byte to the new
`state` and the text written to `stdout`. -/
def print_byte (state : State) (byte : Nat) : State × String :=
  ((print_byte_ctl state byte).state, print_text (print_byte_ctl state byte) byte)

/-- Successive calls `print_byte(b)` for the bytes of a list, in order (the
loop of lines 479-480): final `state` and the text written. -/
def print_bytes : State → List Nat → State × String
  | state, [] => (state, "")
  | state, b :: bs =>
    let r := print_byte state b
    let rs := print_bytes r.1 bs
    (rs.1, r.2 ++ rs.2)

/-! ## The vocabulary of the specification -/

/-- The RenderDirective of the specification.  The source has no such type: it
is the reading of the locals `newline` and `running_status`. -/
inductive Directive where
  | StartLine
  | Continue
  | RunningStatusIndent
  deriving DecidableEq, Repr

open Directive

/-- The directive that the locals of `print_byte` stand for: `running_status`
set is RunningStatusIndent, else `newline` set is StartLine, else Continue. -/
def directive (c : Ctl) : Directive :=
  if c.running_status then RunningStatusIndent
  else if c.newline then StartLine
  else Continue

/-- The directive `print_byte` assigns to a byte: `classify` in the
specification. -/
def classify (state : State) (byte : Nat) : Directive :=
  directive (print_byte_ctl state byte)

/-- The rendering rule as the specification words it: a line break, a space,
or a line break and an indent of three spaces, then the two hex digits. -/
def render (d : Directive) (byte : Nat) : String :=
  match d with
  | StartLine => "\n" ++ hex byte
  | Continue => " " ++ hex byte
  | RunningStatusIndent => "\n   " ++ hex byte

/-- The directives assigned to the bytes of a list fed to `print_byte` in
order. -/
def classify_all : State → List Nat → List Directive
  | _, [] => []
  | state, b :: bs => classify state b :: classify_all (print_byte state b).1 bs

/-- The state `print_byte` is in before the `k`-th data byte (counted from 1)
that follows a status byte taking two data bytes. -/
def two_param_state (k : Nat) : State :=
  if k = 1 then STATE_2PARAM_1
  else if k % 2 = 0 then STATE_2PARAM_2
  else STATE_2PARAM_1_CONTINUE

/-- The text of the `k`-th data byte `d` of a two-parameter message as the
specification words it: a space and the hex digits when `k ≤ 2` or `k` is
even, a line break, three spaces and the hex digits otherwise. -/
def two_param_item (kd : Nat × Nat) : String :=
  if kd.1 ≤ 2 ∨ kd.1 % 2 = 0 then " " ++ hex kd.2 else "\n   " ++ hex kd.2

/-! ## The read loop of main -/

/-- The byte filter as the specification words it: with the flag set every
0xFE is removed and the other bytes keep their order, without it the chunk is
returned as it is. -/
def byte_filter (drop_active_sensing : Bool) (chunk : List Nat) : List Nat :=
  if drop_active_sensing then chunk.filter (fun b => b != 0xfe) else chunk

/-- The compaction loop of lines 470-473,
`for (i = 0; i < err; ++i) if (!ignore_active_sensing || buf[i] != 0xfe) buf[length++] = buf[i];`
The first numeric argument is `err - i`, the number of iterations left; the
result is `length` and `buf` when the loop is left. -/
def compact (ignore_active_sensing : Bool) : Nat → Nat → Nat → List Nat → Nat × List Nat
  | 0, _, length, buf => (length, buf)
  | n + 1, i, length, buf =>
    if !ignore_active_sensing || buf.getD i 0 != 0xfe then
      compact ignore_active_sensing n (i + 1) (length + 1) (buf.set length (buf.getD i 0))
    else
      compact ignore_active_sensing n (i + 1) length buf

/-- A C `int` (32 bits on every platform ALSA runs on): the value an `int`
holds after an arithmetic result `x`, by two's complement wrap-around (ISO C
leaves signed overflow undefined; whatever happens, the variable holds a
number of this range). -/
def int_wrap (x : Int) : Int :=
  (x + 2147483648) % 4294967296 - 2147483648

/-- `EINTR` of `<errno.h>`, the Linux value. -/
def EINTR : Int := 4

/-- `EAGAIN` of `<errno.h>`, the Linux value. -/
def EAGAIN : Int := 11

/-- `POLLIN` of `<sys/poll.h>`, the Linux value. -/
def POLLIN : Nat := 0x001

/-- `POLLERR` of `<sys/poll.h>`, the Linux value. -/
def POLLERR : Nat := 0x008

/-- `POLLHUP` of `<sys/poll.h>`, the Linux value. -/
def POLLHUP : Nat := 0x010

/-- The calls of `error(...)` in `main` from line 421 on, by their format
string (the arguments are texts of the system). -/
inductive Message where
  | cannot_open_port
  | poll_failed
  | cannot_get_poll_events
  | cannot_read_from_port
  deriving DecidableEq, Repr

/-- What the system answers during one pass through the body of `for (;;)`
(lines 439-482).  A field is looked at only when the pass reaches the call it
belongs to. -/
structure Pass where
  /-- the flag `stop` when line 445 tests it -/
  stop : Bool
  /-- the value returned by `poll` -/
  poll_ret : Int
  /-- the value of `errno` after `poll` -/
  errno : Int
  /-- the value returned by `snd_rawmidi_poll_descriptors_revents` -/
  revents_ret : Int
  /-- the `revents` it stores -/
  revents : Nat
  /-- the value returned by `snd_rawmidi_read` -/
  read_ret : Int
  /-- the array `buf` after `snd_rawmidi_read` -/
  buf : List Nat
  deriving DecidableEq, Repr

/-- The variables that live across the passes: the static `state` of
`print_byte`, the locals `read` and `time` of `main`, and what has been
written to `stdout` and `stderr`. -/
structure Session where
  state : State
  read : Int
  time : Int
  stdout : String
  stderr : List Message
  deriving DecidableEq, Repr

/-- One pass through the body of `for (;;)` (lines 444-481).  The Boolean is
true when the pass leaves the loop by `break`, false when it reaches the end
of the body or a `continue`. -/
def loop_body (ignore_active_sensing : Bool) (p : Pass) (s : Session) : Bool × Session :=
  if p.stop || (decide (p.poll_ret < 0) && decide (p.errno = EINTR)) then (true, s)
  else if p.poll_ret < 0 then
    (true, { s with stderr := s.stderr ++ [Message.poll_failed] })
  else if p.poll_ret = 0 then
    (false, { s with time := int_wrap (s.time + 200) })
  else if p.revents_ret < 0 then
    (true, { s with stderr := s.stderr ++ [Message.cannot_get_poll_events] })
  else if p.revents &&& (POLLERR ||| POLLHUP) ≠ 0 then (true, s)
  else if p.revents &&& POLLIN = 0 then (false, s)
  else if p.read_ret = -EAGAIN then (false, s)
  else if p.read_ret < 0 then
    (true, { s with stderr := s.stderr ++ [Message.cannot_read_from_port] })
  else
    let c := compact ignore_active_sensing p.read_ret.toNat 0 0 p.buf
    if c.1 = 0 then (false, s)
    else
      let r := print_bytes s.state (c.2.take c.1)
      (false, { s with
        state := r.1, read := int_wrap (s.read + c.1), time := 0,
        stdout := s.stdout ++ r.2 })

/-- The loop `for (;;)` over the passes given.  The Boolean is true when one
of them left the loop, and the passes after it are not run; it is false when
the passes are used up with the loop still going. -/
def for_loop (ignore_active_sensing : Bool) : List Pass → Session → Bool × Session
  | [], s => (false, s)
  | p :: ps, s =>
    let r := loop_body ignore_active_sensing p s
    if r.1 then (true, r.2) else for_loop ignore_active_sensing ps r.2

/-- The session when the loop is entered: `state = STATE_UNKNOWN`, `read = 0`,
`time = 0`, nothing written. -/
def session_start : Session :=
  ⟨STATE_UNKNOWN, 0, 0, "", []⟩

/-- What the system answers during one run of `main` from line 419 on. -/
structure Run where
  /-- the value returned by `snd_rawmidi_open` -/
  open_ret : Int
  /-- the passes of the loop -/
  passes : List Pass
  /-- the value of `isatty(fileno(stdout))` -/
  isatty : Bool
  deriving DecidableEq, Repr

/-- What a run leaves: the value returned by `main` and the two streams. -/
structure Outcome where
  status : Int
  stdout : String
  stderr : List Message
  deriving DecidableEq, Repr

/-- The C operator `!` on an `int`. -/
def lnot (x : Int) : Int :=
  if x = 0 then 1 else 0

/-- The function `main` from line 419 on, with `ok = 0` as line 376 leaves it:
`snd_rawmidi_open`, the loop, the summary, `ok = 1`, `return !ok`.  The result
is `none` when the passes given do not leave the loop. -/
def main (ignore_active_sensing : Bool) (r : Run) : Option Outcome :=
  let ok : Int := 0
  if r.open_ret < 0 then
    some ⟨lnot ok, "", [Message.cannot_open_port]⟩
  else
    let l := for_loop ignore_active_sensing r.passes session_start
    if l.1 then
      let out :=
        if r.isatty then l.2.stdout ++ ("\n" ++ toString l.2.read ++ " bytes read\n")
        else l.2.stdout
      let ok : Int := 1
      some ⟨lnot ok, out, l.2.stderr⟩
    else none

/-- The bytes `snd_rawmidi_read` delivered in a pass: `buf[0..err)`. -/
def chunk (p : Pass) : List Nat :=
  p.buf.take p.read_ret.toNat

/-- A pass in which a chunk is read: no stop, `poll` reports a ready
descriptor, the readiness query succeeds and reports `POLLIN` without
`POLLERR` or `POLLHUP`, and `snd_rawmidi_read` returns a count that fits the
buffer. -/
def reads_chunk (p : Pass) : Prop :=
  p.stop = false ∧ 0 < p.poll_ret ∧ 0 ≤ p.revents_ret ∧
    p.revents &&& (POLLERR ||| POLLHUP) = 0 ∧ p.revents &&& POLLIN ≠ 0 ∧
    0 ≤ p.read_ret ∧ p.read_ret.toNat ≤ p.buf.length ∧ p.buf.length = 256

instance (p : Pass) : Decidable (reads_chunk p) := by
  unfold reads_chunk
  infer_instance

/-- The pass in which `snd_rawmidi_read` fills the 256 bytes of `buf` with the
bytes of `bs` (cut or padded with zeros to 256). -/
def read_pass (bs : List Nat) : Pass :=
  ⟨false, 1, 0, 0, POLLIN, (min bs.length 256 : Nat), bs.take 256 ++ List.replicate (256 - bs.length) 0⟩

/-- The fatal conditions of a pass as the specification lists them: `poll`
failed and not by an interrupted call, the readiness query failed, or the
read failed with something other than would-block (and the stop flag was not
seen first). -/
def fatal_pass (p : Pass) : Bool :=
  !p.stop &&
    ((decide (p.poll_ret < 0) && !decide (p.errno = EINTR)) ||
      (decide (0 < p.poll_ret) && decide (p.revents_ret < 0)) ||
      (decide (0 < p.poll_ret) && decide (0 ≤ p.revents_ret) &&
        decide (p.revents &&& (POLLERR ||| POLLHUP) = 0) && decide (p.revents &&& POLLIN ≠ 0) &&
        decide (p.read_ret < 0) && !decide (p.read_ret = -EAGAIN)))

/-- The passes that leave the loop, as section 4.3 of the specification
lists them: the stop flag is seen, `poll` fails (interrupted or not), the
readiness query fails, the descriptor reports an error or a hang-up, or the
read fails with something other than would-block. -/
def leaves (p : Pass) : Bool :=
  p.stop || decide (p.poll_ret < 0) ||
    (decide (0 < p.poll_ret) &&
      (decide (p.revents_ret < 0) ||
        decide (p.revents &&& (POLLERR ||| POLLHUP) ≠ 0) ||
        (decide (p.revents &&& POLLIN ≠ 0) && decide (p.read_ret < 0) &&
          !decide (p.read_ret = -EAGAIN))))

/-- The passes in which a chunk is read, as section 4.3 of the specification
lists them: no stop, a descriptor is ready, the readiness query succeeds and
reports readable without error or hang-up, and the read returns a count. -/
def reads (p : Pass) : Bool :=
  !p.stop && decide (0 < p.poll_ret) && decide (0 ≤ p.revents_ret) &&
    decide (p.revents &&& (POLLERR ||| POLLHUP) = 0) &&
    decide (p.revents &&& POLLIN ≠ 0) && decide (0 ≤ p.read_ret)

/-- The bytes a pass brings into the session: its chunk when it reads one,
nothing when it is a timeout, finds nothing readable, would block, or leaves
the loop. -/
def delivered (p : Pass) : List Nat :=
  if reads p then chunk p else []

/-- What `snd_rawmidi_read(input, buf, sizeof(buf))` guarantees in a pass that
reads: `buf` has its 256 bytes and the count returned fits it. -/
def well_formed (p : Pass) : Prop :=
  reads p = true → p.buf.length = 256 ∧ p.read_ret.toNat ≤ p.buf.length

instance (p : Pass) : Decidable (well_formed p) := by
  unfold well_formed
  infer_instance

/-- The passes of a session that are run: those before the first one that
leaves the loop. -/
def executed (ps : List Pass) : List Pass :=
  ps.takeWhile fun p => !leaves p

/-- The byte stream of a session: the chunks read in the passes that are run,
one after the other. -/
def stream (ps : List Pass) : List Nat :=
  ((executed ps).map delivered).flatten

/-! ## Lemmas on print_byte -/

theorem print_byte_state (state : State) (byte : Nat) :
    (print_byte state byte).1 = (print_byte_ctl state byte).state := rfl

/-- The two locals are never both set. -/
theorem newline_running_exclusive (state : State) (byte : Nat) :
    ¬ ((print_byte_ctl state byte).newline = true ∧
        (print_byte_ctl state byte).running_status = true) := by
  unfold print_byte_ctl system_common data_byte
  cases state <;> (split_ifs <;> simp)

/-- The text written by `print_byte` is the rendering of its directive. -/
theorem print_byte_text (state : State) (byte : Nat) :
    (print_byte state byte).2 = render (classify state byte) byte := by
  have h := newline_running_exclusive state byte
  unfold print_byte classify directive render print_text
  cases hn : (print_byte_ctl state byte).newline <;>
    cases hr : (print_byte_ctl state byte).running_status <;>
    simp_all
  all_goals rfl

theorem print_bytes_append (state : State) (xs ys : List Nat) :
    print_bytes state (xs ++ ys) =
      ((print_bytes (print_bytes state xs).1 ys).1,
        (print_bytes state xs).2 ++ (print_bytes (print_bytes state xs).1 ys).2) := by
  induction xs generalizing state with
  | nil => simp [print_bytes]
  | cons b bs ih => simp [print_bytes, ih, String.append_assoc]

theorem string_join_cons (a : String) (l : List String) :
    String.join (a :: l) = a ++ String.join l := by
  apply String.ext
  simp [String.data_join]

theorem print_byte_ctl_realtime (S : State) (b : Nat) (hb : 0xF8 ≤ b) :
    print_byte_ctl S b = ⟨S, true, false⟩ := by
  unfold print_byte_ctl
  rw [if_pos hb]

theorem print_byte_ctl_data (S : State) (b : Nat) (hb : b < 0x80) :
    print_byte_ctl S b = data_byte S := by
  unfold print_byte_ctl
  rw [if_neg (by omega), if_neg (by omega), if_neg (by omega)]

/-- A data byte: the new state and the text, read off the `switch (state)`. -/
theorem print_byte_data (S : State) (b : Nat) (hb : b < 0x80) :
    print_byte S b = ((data_byte S).state, render (directive (data_byte S)) b) := by
  have h := print_byte_text S b
  rw [classify, print_byte_ctl_data S b hb] at h
  rw [← h]
  simp [print_byte, print_byte_ctl_data S b hb]

theorem hex_digit_ne_newline (n : Nat) (hn : n < 16) : hex_digit n ≠ Char.ofNat 10 := by
  interval_cases n <;> decide

/-- The digits of `hex` are those of the table 0-9, A-F. -/
theorem hex_digit_table (n : Nat) (hn : n < 16) :
    hex_digit n = "0123456789ABCDEF".data.getD n (Char.ofNat 0) := by
  interval_cases n <;> decide

theorem hex_no_newline (b : Nat) (hb : b < 256) :
    (hex b).data.count (Char.ofNat 10) = 0 := by
  have h1 : b % 16 < 16 := Nat.mod_lt _ (by decide)
  have h2 : b / 16 < 16 := by omega
  simp [hex, List.count_cons, hex_digit_ne_newline _ h2, hex_digit_ne_newline _ h1]

/-! ## Single-byte rules -/

/-- C1. Real-time transparency: in each of the seven states a byte from 0xF8
up is classified StartLine, the text written is a line break followed by its
two hex digits, and the state is left as it was. -/
theorem realtime_transparent (S : State) (b : Nat) (hb : 0xF8 ≤ b) :
    classify S b = StartLine ∧
      (print_byte S b).2 = "\n" ++ hex b ∧
      (print_byte S b).1 = S := by
  have hc := print_byte_ctl_realtime S b hb
  refine ⟨?_, ?_, ?_⟩
  · simp [classify, hc, directive]
  · rw [print_byte_text]; simp [classify, hc, directive, render]
  · simp [print_byte, hc]

theorem realtime_transparent_witness :
    0xF8 ≤ 0xFE ∧ classify STATE_SYSEX 0xFE = StartLine ∧
      (print_byte STATE_SYSEX 0xFE).2 = "\n" ++ hex 0xFE ∧
      (print_byte STATE_SYSEX 0xFE).1 = STATE_SYSEX :=
  ⟨by decide, realtime_transparent STATE_SYSEX 0xFE (by decide)⟩

/-- C2. Data-byte table: for a byte below 0x80 the directive and the next
state are those of the table, one row per state, and neither depends on the
value of the byte. -/
theorem data_byte_table (b : Nat) (hb : b < 0x80) :
    (classify STATE_UNKNOWN b = StartLine ∧
        (print_byte STATE_UNKNOWN b).1 = STATE_UNKNOWN) ∧
      (classify STATE_SYSEX b = Continue ∧
        (print_byte STATE_SYSEX b).1 = STATE_SYSEX) ∧
      (classify STATE_1PARAM b = Continue ∧
        (print_byte STATE_1PARAM b).1 = STATE_1PARAM_CONTINUE) ∧
      (classify STATE_1PARAM_CONTINUE b = RunningStatusIndent ∧
        (print_byte STATE_1PARAM_CONTINUE b).1 = STATE_1PARAM_CONTINUE) ∧
      (classify STATE_2PARAM_1 b = Continue ∧
        (print_byte STATE_2PARAM_1 b).1 = STATE_2PARAM_2) ∧
      (classify STATE_2PARAM_2 b = Continue ∧
        (print_byte STATE_2PARAM_2 b).1 = STATE_2PARAM_1_CONTINUE) ∧
      (classify STATE_2PARAM_1_CONTINUE b = RunningStatusIndent ∧
        (print_byte STATE_2PARAM_1_CONTINUE b).1 = STATE_2PARAM_2) ∧
      (∀ (S : State) (c : Nat), c < 0x80 →
        classify S c = classify S b ∧ (print_byte S c).1 = (print_byte S b).1) := by
  have hc := print_byte_ctl_data
  refine ⟨?_, ?_, ?_, ?_, ?_, ?_, ?_, ?_⟩
  all_goals first
    | (simp [classify, print_byte, hc _ b hb, data_byte, directive]; done)
    | (intro S c h; simp [classify, print_byte, hc S c h, hc S b hb])

theorem data_byte_table_witness :
    0x41 < 0x80 ∧
      classify STATE_2PARAM_1_CONTINUE 0x41 = RunningStatusIndent ∧
      (print_byte STATE_2PARAM_1_CONTINUE 0x41).1 = STATE_2PARAM_2 :=
  ⟨by decide, (data_byte_table 0x41 (by decide)).2.2.2.2.2.2.1⟩

/-- C3. Status-byte rules: for a byte from 0x80 to 0xF7 the directive is
Continue when the byte is 0xF7 and the state is STATE_SYSEX, and StartLine in
every other case; the next state is fixed by the byte alone. -/
theorem status_byte_rules (S : State) (b : Nat) (hlo : 0x80 ≤ b) (hhi : b ≤ 0xF7) :
    (classify S b = Continue ↔ (b = 0xF7 ∧ S = STATE_SYSEX)) ∧
      (¬ (b = 0xF7 ∧ S = STATE_SYSEX) → classify S b = StartLine) ∧
      (((0xC0 ≤ b ∧ b ≤ 0xDF) ∨ b = 0xF1 ∨ b = 0xF3) →
        (print_byte S b).1 = STATE_1PARAM) ∧
      (((0x80 ≤ b ∧ b ≤ 0xBF) ∨ (0xE0 ≤ b ∧ b ≤ 0xEF) ∨ b = 0xF2) →
        (print_byte S b).1 = STATE_2PARAM_1) ∧
      (b = 0xF0 → (print_byte S b).1 = STATE_SYSEX) ∧
      ((b = 0xF4 ∨ b = 0xF5 ∨ b = 0xF6 ∨ b = 0xF7) →
        (print_byte S b).1 = STATE_UNKNOWN) ∧
      (∀ T : State, (print_byte T b).1 = (print_byte S b).1) := by
  have h1 : ¬ (b ≥ 0xf8) := by omega
  simp only [classify, print_byte, print_byte_ctl, if_neg h1]
  by_cases h2 : b ≥ 0xf0
  · rw [if_pos h2]
    have hcases : b = 0xf0 ∨ b = 0xf1 ∨ b = 0xf2 ∨ b = 0xf3 ∨ b = 0xf4 ∨ b = 0xf5 ∨
        b = 0xf6 ∨ b = 0xf7 := by omega
    rcases hcases with h | h | h | h | h | h | h | h <;> subst h <;>
      cases S <;> simp [system_common, directive]
  · rw [if_neg h2, if_pos hlo]
    split_ifs with h3
    · simp [directive]; omega
    · simp [directive]; omega

theorem status_byte_rules_witness :
    0x80 ≤ 0xF7 ∧ 0xF7 ≤ 0xF7 ∧
      classify STATE_SYSEX 0xF7 = Continue ∧
      (print_byte STATE_SYSEX 0xF7).1 = STATE_UNKNOWN :=
  ⟨by decide, by decide,
    (status_byte_rules STATE_SYSEX 0xF7 (by decide) (by decide)).1.mpr ⟨rfl, rfl⟩,
    (status_byte_rules STATE_SYSEX 0xF7 (by decide) (by decide)).2.2.2.2.2.1
      (Or.inr (Or.inr (Or.inr rfl)))⟩

/-! ## Streams of bytes -/

theorem two_param_step (k d : Nat) (hk : 1 ≤ k) (hd : d < 0x80) :
    print_byte (two_param_state k) d = (two_param_state (k + 1), two_param_item (k, d)) := by
  rw [print_byte_data _ _ hd]
  unfold two_param_state two_param_item
  by_cases h1 : k = 1
  · subst h1; rfl
  · have h1b : ¬ (k + 1 = 1) := by omega
    rw [if_neg h1, if_neg h1b]
    by_cases h2 : k % 2 = 0
    · have h3 : ¬ ((k + 1) % 2 = 0) := by omega
      rw [if_pos h2, if_neg h3, if_pos (Or.inr h2)]
      rfl
    · have h3 : (k + 1) % 2 = 0 := by omega
      have h4 : ¬ (k ≤ 2 ∨ k % 2 = 0) := by omega
      rw [if_neg h2, if_pos h3]
      simp only []
      rw [if_neg h4]
      rfl

theorem two_param_data (ds : List Nat) (k : Nat) (hk : 1 ≤ k) (hd : ∀ d ∈ ds, d < 0x80) :
    print_bytes (two_param_state k) ds =
      (two_param_state (k + ds.length),
        String.join ((List.enumFrom k ds).map two_param_item)) := by
  induction ds generalizing k with
  | nil => simp [print_bytes, String.join]
  | cons d ds ih =>
    have hd0 : d < 0x80 := hd d (List.mem_cons_self _ _)
    have hds : ∀ e ∈ ds, e < 0x80 := fun e he => hd e (List.mem_cons_of_mem _ he)
    simp only [print_bytes, two_param_step k d hk hd0, ih (k + 1) (by omega) hds,
      List.enumFrom_cons, List.map_cons, string_join_cons, List.length_cons]
    congr 2
    omega

/-- Pairs of data bytes arriving after the first pair of a two-parameter
message: each pair opens a line of its own with the three-space indent. -/
theorem two_param_pairs (ps : List (Nat × Nat))
    (hp : ∀ p ∈ ps, p.1 < 0x80 ∧ p.2 < 0x80) :
    print_bytes STATE_2PARAM_1_CONTINUE (ps.flatMap fun p => [p.1, p.2]) =
      (STATE_2PARAM_1_CONTINUE,
        String.join (ps.map fun p => "\n   " ++ hex p.1 ++ " " ++ hex p.2)) := by
  induction ps with
  | nil => simp [print_bytes, String.join]
  | cons p ps ih =>
    have h0 := hp p (List.mem_cons_self _ _)
    have hps : ∀ q ∈ ps, q.1 < 0x80 ∧ q.2 < 0x80 :=
      fun q hq => hp q (List.mem_cons_of_mem _ hq)
    have e1 : print_byte STATE_2PARAM_1_CONTINUE p.1 = (STATE_2PARAM_2, "\n   " ++ hex p.1) := by
      rw [print_byte_data _ _ h0.1]; rfl
    have e2 : print_byte STATE_2PARAM_2 p.2 = (STATE_2PARAM_1_CONTINUE, " " ++ hex p.2) := by
      rw [print_byte_data _ _ h0.2]; rfl
    rw [List.flatMap_cons]
    simp only [List.cons_append, List.nil_append, print_bytes, e1, e2]
    rw [show ([] : List Nat).append (ps.flatMap fun p => [p.1, p.2]) =
      ps.flatMap fun p => [p.1, p.2] from rfl, ih hps]
    simp only [List.map_cons, string_join_cons, String.append_assoc]

/-- C5. Running-status repeat for two-data-byte messages: after a status byte
`s` of 0x80..0xBF or 0xE0..0xEF, the `k`-th data byte is written after one
space when `k ≤ 2` or `k` is even, and after a line break and three spaces
when `k ≥ 3` is odd; so a stream of whole pairs is written two data bytes to
the line. -/
theorem running_status_two_param (S : State) (s : Nat) (ds : List Nat)
    (hs : (0x80 ≤ s ∧ s ≤ 0xBF) ∨ (0xE0 ≤ s ∧ s ≤ 0xEF))
    (hd : ∀ d ∈ ds, d < 0x80) :
    (print_bytes S (s :: ds)).2 =
        "\n" ++ hex s ++ String.join ((List.enumFrom 1 ds).map fun kd =>
          if kd.1 ≤ 2 ∨ kd.1 % 2 = 0 then " " ++ hex kd.2 else "\n   " ++ hex kd.2) ∧
      (∀ (a b : Nat) (ps : List (Nat × Nat)), a < 0x80 → b < 0x80 →
        (∀ p ∈ ps, p.1 < 0x80 ∧ p.2 < 0x80) →
        (print_bytes S (s :: a :: b :: ps.flatMap fun p => [p.1, p.2])).2 =
          "\n" ++ hex s ++ " " ++ hex a ++ " " ++ hex b ++
            String.join (ps.map fun p => "\n   " ++ hex p.1 ++ " " ++ hex p.2)) := by
  have hctl : print_byte_ctl S s = ⟨STATE_2PARAM_1, true, false⟩ := by
    unfold print_byte_ctl
    rw [if_neg (by omega), if_neg (by omega), if_pos (by omega), if_neg (by omega)]
  have hst : print_byte S s = (STATE_2PARAM_1, "\n" ++ hex s) := by
    have h := print_byte_text S s
    rw [classify, hctl] at h
    rw [Prod.ext_iff]
    exact ⟨by rw [print_byte_state, hctl], h⟩
  constructor
  · have h := two_param_data ds 1 (le_refl 1) hd
    rw [show two_param_state 1 = STATE_2PARAM_1 from rfl] at h
    simp only [print_bytes, hst, h]
    rfl
  · intro a b ps ha hb hp
    have e1 : print_byte STATE_2PARAM_1 a = (STATE_2PARAM_2, " " ++ hex a) := by
      rw [print_byte_data _ _ ha]; rfl
    have e2 : print_byte STATE_2PARAM_2 b = (STATE_2PARAM_1_CONTINUE, " " ++ hex b) := by
      rw [print_byte_data _ _ hb]; rfl
    simp only [print_bytes, hst, e1, e2, two_param_pairs ps hp, String.append_assoc]

theorem running_status_two_param_witness :
    ((0x80 ≤ 0x90 ∧ 0x90 ≤ 0xBF) ∨ (0xE0 ≤ 0x90 ∧ 0x90 ≤ 0xEF)) ∧
      (∀ d ∈ [0x40, 0x7F, 0x41, 0x7F], d < 0x80) ∧
      (print_bytes STATE_SYSEX [0x90, 0x40, 0x7F, 0x41, 0x7F]).2 = "\n90 40 7F\n   41 7F" :=
  ⟨by decide, by decide,
    (running_status_two_param STATE_SYSEX 0x90 [0x40, 0x7F, 0x41, 0x7F]
      (by decide) (by decide)).1.trans (by decide)⟩

/-- Data bytes inside a system-exclusive message stay on the line. -/
theorem sysex_data (ds : List Nat) (hd : ∀ d ∈ ds, d < 0x80) :
    print_bytes STATE_SYSEX ds =
      (STATE_SYSEX, String.join (ds.map fun d => " " ++ hex d)) := by
  induction ds with
  | nil => simp [print_bytes, String.join]
  | cons d ds ih =>
    have hd0 : d < 0x80 := hd d (List.mem_cons_self _ _)
    have hds : ∀ e ∈ ds, e < 0x80 := fun e he => hd e (List.mem_cons_of_mem _ he)
    have e1 : print_byte STATE_SYSEX d = (STATE_SYSEX, " " ++ hex d) := by
      rw [print_byte_data _ _ hd0]; rfl
    simp only [print_bytes, e1, ih hds, List.map_cons, string_join_cons]

theorem sysex_data_no_newline (ds : List Nat) (hd : ∀ d ∈ ds, d < 0x80) :
    (String.join (ds.map fun d => " " ++ hex d)).data.count (Char.ofNat 10) = 0 := by
  induction ds with
  | nil => simp [String.join]
  | cons d ds ih =>
    have hd0 : d < 0x80 := hd d (List.mem_cons_self _ _)
    have hds : ∀ e ∈ ds, e < 0x80 := fun e he => hd e (List.mem_cons_of_mem _ he)
    rw [List.map_cons, string_join_cons, String.data_append, String.data_append,
      List.count_append, List.count_append, ih hds, hex_no_newline d (by omega)]
    decide

/-- C6. System-exclusive framing: 0xF0, data bytes, 0xF7 is written as
a line break, F0, each data byte after one space, then a space and F7; the one
line break of the text is the leading one, and the state ends as
STATE_UNKNOWN. -/
theorem sysex_framing (S : State) (ds : List Nat) (hd : ∀ d ∈ ds, d < 0x80) :
    print_bytes S (0xF0 :: (ds ++ [0xF7])) =
        (STATE_UNKNOWN, "\nF0" ++ String.join (ds.map fun d => " " ++ hex d) ++ " F7") ∧
      (print_bytes S (0xF0 :: (ds ++ [0xF7]))).2.data.count (Char.ofNat 10) = 1 := by
  have e0 : print_byte S 0xF0 = (STATE_SYSEX, "\nF0") := by
    cases S <;> decide
  have e7 : print_byte STATE_SYSEX 0xF7 = (STATE_UNKNOWN, " F7") := by decide
  have hmain : print_bytes S (0xF0 :: (ds ++ [0xF7])) =
      (STATE_UNKNOWN, "\nF0" ++ String.join (ds.map fun d => " " ++ hex d) ++ " F7") := by
    simp only [print_bytes, e0, print_bytes_append, sysex_data ds hd, e7,
      String.append_empty, String.append_assoc]
  refine ⟨hmain, ?_⟩
  rw [hmain]
  simp only [String.data_append, List.count_append, sysex_data_no_newline ds hd]
  decide

theorem sysex_framing_witness :
    (∀ d ∈ [0x41, 0x10], d < 0x80) ∧
      print_bytes STATE_1PARAM [0xF0, 0x41, 0x10, 0xF7] = (STATE_UNKNOWN, "\nF0 41 10 F7") ∧
      (print_bytes STATE_1PARAM [0xF0, 0x41, 0x10, 0xF7]).2.data.count (Char.ofNat 10) = 1 :=
  ⟨by decide,
    (sysex_framing STATE_1PARAM [0x41, 0x10] (by decide)).1.trans (by decide),
    (sysex_framing STATE_1PARAM [0x41, 0x10] (by decide)).2⟩

/-- Feeding a list leaves the state that feeding it without its real-time
bytes (0xF8 and above) leaves. -/
theorem print_bytes_state_filter (S : State) (xs : List Nat) :
    (print_bytes S xs).1 = (print_bytes S (xs.filter fun b => decide (b < 0xF8))).1 := by
  induction xs generalizing S with
  | nil => rfl
  | cons b bs ih =>
    by_cases hb : b < 0xF8
    · rw [List.filter_cons_of_pos (by simpa using hb)]
      simp only [print_bytes]
      exact ih _
    · rw [List.filter_cons_of_neg (by simpa using hb)]
      simp only [print_bytes]
      rw [print_byte_state, print_byte_ctl_realtime S b (by omega)]
      exact ih S

theorem classify_all_filter (S : State) (xs : List Nat) :
    ((xs.zip (classify_all S xs)).filter fun p => decide (p.1 < 0xF8)).map Prod.snd =
      classify_all S (xs.filter fun b => decide (b < 0xF8)) := by
  induction xs generalizing S with
  | nil => rfl
  | cons b bs ih =>
    by_cases hb : b < 0xF8
    · rw [List.filter_cons_of_pos (by simpa using hb)]
      simp only [classify_all, List.zip_cons_cons]
      rw [List.filter_cons_of_pos (by simpa using hb), List.map_cons, ih]
    · rw [List.filter_cons_of_neg (by simpa using hb)]
      simp only [classify_all, List.zip_cons_cons]
      rw [List.filter_cons_of_neg (by simpa using hb), print_byte_state,
        print_byte_ctl_realtime S b (by omega)]
      exact ih S

theorem classify_all_realtime (S : State) (xs : List Nat) :
    ∀ p ∈ xs.zip (classify_all S xs), 0xF8 ≤ p.1 → p.2 = StartLine := by
  induction xs generalizing S with
  | nil => intro p hp; simp [classify_all] at hp
  | cons b bs ih =>
    intro p hp h
    simp only [classify_all, List.zip_cons_cons, List.mem_cons] at hp
    rcases hp with rfl | hp
    · simp only [classify, print_byte_ctl_realtime S b h, directive]
      rfl
    · exact ih _ p hp h

/-- C7. Stream-level real-time transparency: deleting the bytes 0xF8 and above
from a stream changes neither the final state nor the directives of the
bytes that remain, and each deleted byte is StartLine; a real-time byte inside
a system-exclusive message leaves the closing 0xF7 on the line. -/
theorem stream_transparency (S : State) (xs : List Nat) :
    (print_bytes S xs).1 = (print_bytes S (xs.filter fun b => decide (b < 0xF8))).1 ∧
      ((xs.zip (classify_all S xs)).filter fun p => decide (p.1 < 0xF8)).map Prod.snd =
        classify_all S (xs.filter fun b => decide (b < 0xF8)) ∧
      (∀ p ∈ xs.zip (classify_all S xs), 0xF8 ≤ p.1 → p.2 = StartLine) ∧
      (∀ pre post : List Nat,
        classify_all S (pre ++ 0xFE :: post) =
          classify_all S pre ++ StartLine :: classify_all (print_bytes S pre).1 post ∧
        classify_all S (pre ++ post) =
          classify_all S pre ++ classify_all (print_bytes S pre).1 post) ∧
      classify_all S [0xF0, 0x41, 0xFF, 0x10, 0xF7] =
        [StartLine, Continue, StartLine, Continue, Continue] ∧
      (print_bytes S [0xF0, 0x41, 0xFF, 0x10, 0xF7]).1 = STATE_UNKNOWN := by
  refine ⟨print_bytes_state_filter S xs, classify_all_filter S xs,
    classify_all_realtime S xs, ?_, ?_, ?_⟩
  · intro pre post
    constructor
    · induction pre generalizing S with
      | nil => rfl
      | cons b bs ih =>
        simp only [List.cons_append, classify_all, print_bytes]
        exact congrArg _ (ih _)
    · induction pre generalizing S with
      | nil => rfl
      | cons b bs ih =>
        simp only [List.cons_append, classify_all, print_bytes]
        exact congrArg _ (ih _)
  · cases S <;> decide
  · cases S <;> decide

/-! ## The byte filter -/

theorem getD_mid (pre tail : List Nat) (b : Nat) :
    (pre ++ b :: tail).getD pre.length 0 = b := by
  rw [List.getD_eq_getElem?_getD, List.getElem?_append_right (le_refl _)]
  simp

/-- The store `buf[length] = buf[i]` when `buf[0..length)` is what has been
kept and `buf[i]` is the byte looked at. -/
theorem set_mid (kept junk tail : List Nat) (b : Nat) :
    ∃ junk2, ((kept ++ junk) ++ b :: tail).set kept.length b = ((kept ++ [b]) ++ junk2) ++ tail ∧
      junk2.length = junk.length := by
  cases junk with
  | nil => exact ⟨[], by simp [List.set_append], by simp⟩
  | cons j js => exact ⟨js ++ [b], by simp [List.set_append], by simp⟩

/-- Invariant of the compaction loop: with `kept` in `buf[0..length)` and
`rest` in `buf[i..err)`, the loop ends with `kept` followed by the filtered
`rest` in front of `buf`. -/
theorem compact_inv (ignore : Bool) (rest : List Nat) :
    ∀ (kept junk pad : List Nat) (i len : Nat),
      i = kept.length + junk.length → len = kept.length →
      (compact ignore rest.length i len ((kept ++ junk) ++ (rest ++ pad))).1 =
          len + (byte_filter ignore rest).length ∧
      (compact ignore rest.length i len ((kept ++ junk) ++ (rest ++ pad))).2.take
          (len + (byte_filter ignore rest).length) = kept ++ byte_filter ignore rest := by
  induction rest with
  | nil => intro kept junk pad i len hi hl; subst hl; simp [compact, byte_filter]
  | cons b rest ih =>
    intro kept junk pad i len hi hl
    have hg : ((kept ++ junk) ++ b :: (rest ++ pad)).getD i 0 = b := by
      rw [hi, ← List.length_append]; exact getD_mid _ _ _
    simp only [List.length_cons, compact, List.cons_append, hg]
    by_cases hk : (!ignore || b != 0xfe) = true
    · rw [if_pos hk]
      obtain ⟨junk2, h1, h2⟩ := set_mid kept junk (rest ++ pad) b
      have hf : byte_filter ignore (b :: rest) = b :: byte_filter ignore rest := by
        unfold byte_filter
        cases ignore
        · simp
        · simp at hk; simp [hk]
      have := ih (kept ++ [b]) junk2 pad (i + 1) (len + 1) (by simp; omega) (by simp; omega)
      rw [hf, hl, h1, ← hl]
      simp only [List.length_cons]
      constructor
      · rw [this.1]; omega
      · rw [show len + ((byte_filter ignore rest).length + 1) =
          len + 1 + (byte_filter ignore rest).length by omega, this.2]
        simp
    · rw [if_neg hk]
      have hf : byte_filter ignore (b :: rest) = byte_filter ignore rest := by
        unfold byte_filter
        cases ignore
        · simp at hk
        · simp at hk; simp [hk]
      have := ih kept (junk ++ [b]) pad (i + 1) len (by simp; omega) hl
      rw [hf]
      simpa [List.append_assoc] using this

/-- The compaction loop run from `i = 0`, `length = 0` over `err` bytes of
`buf`: `length` and `buf[0..length)` at its end. -/
theorem compact_spec (ignore : Bool) (buf : List Nat) (err : Nat) (h : err ≤ buf.length) :
    (compact ignore err 0 0 buf).1 = (byte_filter ignore (buf.take err)).length ∧
      (compact ignore err 0 0 buf).2.take (compact ignore err 0 0 buf).1 =
        byte_filter ignore (buf.take err) := by
  have hlen : (buf.take err).length = err := by simp [h]
  have hi := compact_inv ignore (buf.take err) [] [] (buf.drop err) 0 0 rfl rfl
  rw [hlen] at hi
  simp only [List.append_nil, List.nil_append, List.take_append_drop, Nat.zero_add] at hi
  rw [hi.1]
  exact ⟨rfl, hi.2⟩

theorem byte_filter_idem (ignore : Bool) (l : List Nat) :
    byte_filter ignore (byte_filter ignore l) = byte_filter ignore l := by
  unfold byte_filter
  cases ignore <;> simp

theorem byte_filter_append (ignore : Bool) (l m : List Nat) :
    byte_filter ignore (l ++ m) = byte_filter ignore l ++ byte_filter ignore m := by
  unfold byte_filter
  cases ignore <;> simp

/-- C8. Byte filter correctness: on the 256-byte `buf` holding a chunk of
`err` bytes, the compaction loop leaves in `buf[0..length)` the chunk without
its 0xFE bytes, in order, when `ignore_active_sensing` is set, and the chunk
itself with `length = err` when it is not; a chunk without 0xFE comes back as
it was under either setting, and running the loop again on the result changes
nothing. -/
theorem byte_filter_correct (ignore : Bool) (buf : List Nat) (err : Nat)
    (hbuf : buf.length = 256) (herr : err ≤ 256) :
    ((compact true err 0 0 buf).2.take (compact true err 0 0 buf).1 =
        (buf.take err).filter (fun b => b != 0xfe)) ∧
      ((compact false err 0 0 buf).2.take (compact false err 0 0 buf).1 = buf.take err ∧
        (compact false err 0 0 buf).1 = err) ∧
      ((compact ignore err 0 0 buf).2.take (compact ignore err 0 0 buf).1 =
        byte_filter ignore (buf.take err)) ∧
      ((∀ b ∈ buf.take err, b ≠ 0xfe) →
        (compact ignore err 0 0 buf).2.take (compact ignore err 0 0 buf).1 = buf.take err ∧
          (compact ignore err 0 0 buf).1 = err) ∧
      ((compact ignore (compact ignore err 0 0 buf).1 0 0 (compact ignore err 0 0 buf).2).2.take
          (compact ignore (compact ignore err 0 0 buf).1 0 0 (compact ignore err 0 0 buf).2).1 =
        (compact ignore err 0 0 buf).2.take (compact ignore err 0 0 buf).1 ∧
        (compact ignore (compact ignore err 0 0 buf).1 0 0 (compact ignore err 0 0 buf).2).1 =
          (compact ignore err 0 0 buf).1) := by
  have hle : err ≤ buf.length := by omega
  have hlen : (buf.take err).length = err := by simp [hle]
  have ht := compact_spec true buf err hle
  have hf := compact_spec false buf err hle
  have hi := compact_spec ignore buf err hle
  refine ⟨?_, ⟨?_, ?_⟩, hi.2, ?_, ?_⟩
  · rw [ht.2]; rfl
  · rw [hf.2]; rfl
  · rw [hf.1]; exact hlen
  · intro hno
    have hid : byte_filter ignore (buf.take err) = buf.take err := by
      unfold byte_filter
      cases ignore
      · rfl
      · simp only [if_true, List.filter_eq_self]
        intro b hb
        simpa using hno b hb
    rw [hi.2, hi.1, hid]
    exact ⟨rfl, hlen⟩
  · have hle2 : (compact ignore err 0 0 buf).1 ≤ (compact ignore err 0 0 buf).2.length := by
      have h := congrArg List.length hi.2
      rw [List.length_take, ← hi.1] at h
      omega
    have h2 := compact_spec ignore _ _ hle2
    rw [hi.2, byte_filter_idem] at h2
    rw [h2.2, hi.2, h2.1, hi.1]
    exact ⟨rfl, rfl⟩

theorem byte_filter_correct_witness :
    ([1, 0xfe, 2] ++ List.replicate 253 0).length = 256 ∧ 3 ≤ 256 ∧
      (compact true 3 0 0 ([1, 0xfe, 2] ++ List.replicate 253 0)).2.take
        (compact true 3 0 0 ([1, 0xfe, 2] ++ List.replicate 253 0)).1 = [1, 2] :=
  ⟨by decide, by decide,
    (byte_filter_correct true ([1, 0xfe, 2] ++ List.replicate 253 0) 3
      (by decide) (by decide)).1.trans (by decide)⟩

/-! ## The exit status -/

/-- The value `main` returns is 1 when `snd_rawmidi_open` failed and 0 in
every other run that ends. -/
theorem main_status (ignore : Bool) (r : Run) (e : Outcome) (h : main ignore r = some e) :
    (r.open_ret < 0 → e.status = 1) ∧ (¬ r.open_ret < 0 → e.status = 0) := by
  unfold main at h
  by_cases ho : r.open_ret < 0
  · simp only [if_pos ho, Option.some.injEq] at h
    subst h
    exact ⟨fun _ => rfl, fun hn => absurd ho hn⟩
  · simp only [if_neg ho] at h
    split_ifs at h <;> simp only [Option.some.injEq] at h <;> subst h <;>
      exact ⟨fun hn => absurd hn ho, fun _ => rfl⟩

/-- C4. Exit status after a fatal condition inside the loop: in a run whose
first pass has `poll` fail with `ENOMEM`, and in one whose first pass has
`snd_rawmidi_read` fail with `-ENODEV`, and in one whose readiness query
fails, `main` writes its error message and returns 0; it returns 1 when the
port cannot be opened. -/
theorem main_fatal_in_loop_returns_zero :
    fatal_pass ⟨false, -1, 12, 0, 0, 0, []⟩ = true ∧
      main true ⟨0, [⟨false, -1, 12, 0, 0, 0, []⟩], false⟩ =
        some ⟨0, "", [Message.poll_failed]⟩ ∧
      fatal_pass ⟨false, 1, 0, 0, POLLIN, -19, []⟩ = true ∧
      main true ⟨0, [⟨false, 1, 0, 0, POLLIN, -19, []⟩], false⟩ =
        some ⟨0, "", [Message.cannot_read_from_port]⟩ ∧
      fatal_pass ⟨false, 1, 0, -9, 0, 0, []⟩ = true ∧
      main true ⟨0, [⟨false, 1, 0, -9, 0, 0, []⟩], false⟩ =
        some ⟨0, "", [Message.cannot_get_poll_events]⟩ ∧
      main true ⟨-2, [], false⟩ = some ⟨1, "", [Message.cannot_open_port]⟩ := by
  decide

/-! ## The loop over passes that read a chunk -/

theorem int_wrap_of_range (x : Int) (h1 : -2147483648 ≤ x) (h2 : x < 2147483648) :
    int_wrap x = x := by
  unfold int_wrap
  omega

theorem int_wrap_range (x : Int) : -2147483648 ≤ int_wrap x ∧ int_wrap x < 2147483648 := by
  unfold int_wrap
  omega

theorem int_wrap_add (x y : Int) : int_wrap (int_wrap x + y) = int_wrap (x + y) := by
  unfold int_wrap
  omega

/-- A pass that reads a chunk: the loop goes on, the filtered chunk has been
fed to `print_byte`, and `read` has grown by its length. -/
theorem loop_body_reads (ignore : Bool) (p : Pass) (s : Session) (hp : reads_chunk p)
    (hr : int_wrap s.read = s.read) :
    (loop_body ignore p s).1 = false ∧
      (loop_body ignore p s).2.state =
        (print_bytes s.state (byte_filter ignore (chunk p))).1 ∧
      (loop_body ignore p s).2.stdout =
        s.stdout ++ (print_bytes s.state (byte_filter ignore (chunk p))).2 ∧
      (loop_body ignore p s).2.read =
        int_wrap (s.read + (byte_filter ignore (chunk p)).length) ∧
      (loop_body ignore p s).2.stderr = s.stderr := by
  obtain ⟨h1, h2, h3, h4, h5, h6, h7, _⟩ := hp
  have hc := compact_spec ignore p.buf p.read_ret.toNat h7
  have e1 : (p.stop || (decide (p.poll_ret < 0) && decide (p.errno = EINTR))) = false := by
    have : ¬ p.poll_ret < 0 := by omega
    simp [h1, this]
  have e2 : ¬ p.poll_ret < 0 := by omega
  have e3 : ¬ p.poll_ret = 0 := by omega
  have e4 : ¬ p.revents_ret < 0 := by omega
  have e5 : ¬ (p.revents &&& (POLLERR ||| POLLHUP) ≠ 0) := by simp [h4]
  have e6 : ¬ (p.revents &&& POLLIN = 0) := h5
  have e7 : ¬ p.read_ret = -EAGAIN := by unfold EAGAIN; omega
  have e8 : ¬ p.read_ret < 0 := by omega
  unfold loop_body
  rw [e1]
  simp only [Bool.false_eq_true, if_false, if_neg e2, if_neg e3, if_neg e4, if_neg e5,
    if_neg e6, if_neg e7, if_neg e8]
  rw [hc.2, hc.1]
  unfold chunk
  by_cases hz : (byte_filter ignore (p.buf.take p.read_ret.toNat)).length = 0
  · rw [if_pos hz]
    have hnil : byte_filter ignore (p.buf.take p.read_ret.toNat) = [] :=
      List.length_eq_zero.mp hz
    rw [hnil]
    simp [print_bytes, hr]
  · rw [if_neg hz]
    simp

/-- The loop over passes that each read a chunk: it is still going, the
filtered chunks have been fed to `print_byte` one after the other, and `read`
is the `int` sum of their lengths. -/
theorem for_loop_reads (ignore : Bool) (ps : List Pass) :
    ∀ (s : Session), (∀ p ∈ ps, reads_chunk p) → int_wrap s.read = s.read →
      (for_loop ignore ps s).1 = false ∧
        (for_loop ignore ps s).2.state =
          (print_bytes s.state (byte_filter ignore (ps.map chunk).flatten)).1 ∧
        (for_loop ignore ps s).2.stdout =
          s.stdout ++ (print_bytes s.state (byte_filter ignore (ps.map chunk).flatten)).2 ∧
        (for_loop ignore ps s).2.read =
          int_wrap (s.read + (byte_filter ignore (ps.map chunk).flatten).length) ∧
        (for_loop ignore ps s).2.stderr = s.stderr := by
  induction ps with
  | nil =>
    intro s _ hr
    simp [for_loop, byte_filter, print_bytes, hr]
  | cons p ps ih =>
    intro s hps hr
    have hp := hps p (List.mem_cons_self _ _)
    have hrest : ∀ q ∈ ps, reads_chunk q := fun q hq => hps q (List.mem_cons_of_mem _ hq)
    obtain ⟨b1, b2, b3, b4, b5⟩ := loop_body_reads ignore p s hp hr
    have hr2 : int_wrap (loop_body ignore p s).2.read = (loop_body ignore p s).2.read := by
      rw [b4]
      exact int_wrap_of_range _ (int_wrap_range _).1 (int_wrap_range _).2
    obtain ⟨c1, c2, c3, c4, c5⟩ := ih (loop_body ignore p s).2 hrest hr2
    simp only [for_loop, b1, Bool.false_eq_true, if_false, List.map_cons, List.flatten_cons,
      byte_filter_append, print_bytes_append, List.length_append]
    refine ⟨c1, ?_, ?_, ?_, ?_⟩
    · rw [c2, b2]
    · rw [c3, b3, b2, String.append_assoc]
    · rw [c4, b4, int_wrap_add]
      congr 1
      push_cast
      omega
    · rw [c5, b5]


/-! ## The loop over arbitrary passes -/

theorem leaves_not_reads (p : Pass) (h : leaves p = true) : reads p = false := by
  unfold leaves at h
  unfold reads
  simp only [Bool.or_eq_true, Bool.and_eq_true, decide_eq_true_eq, Bool.not_eq_true',
    decide_eq_false_iff_not] at h
  by_contra hc
  simp only [Bool.not_eq_false, Bool.and_eq_true, Bool.not_eq_true', decide_eq_true_eq] at hc
  obtain ⟨⟨⟨⟨⟨c1, c2⟩, c3⟩, c4⟩, c5⟩, c6⟩ := hc
  rcases h with (h | h) | ⟨_, (h | h) | h⟩
  · rw [c1] at h; exact absurd h (by decide)
  · omega
  · omega
  · exact h c4
  · omega

theorem executed_cons (p : Pass) (ps : List Pass) :
    executed (p :: ps) = if leaves p = true then [] else p :: executed ps := by
  unfold executed
  rw [List.takeWhile_cons]
  cases leaves p <;> rfl

theorem stream_cons (p : Pass) (ps : List Pass) :
    stream (p :: ps) = if leaves p = true then [] else delivered p ++ stream ps := by
  unfold stream
  rw [executed_cons]
  cases leaves p <;> rfl

/-- One pass of any kind: it leaves the loop exactly when the specification
says so, the bytes it delivers (none unless it reads a chunk) have been
filtered and fed to `print_byte`, `read` has grown by their number, and
nothing else has touched `state`, `stdout` or `read`. -/
theorem loop_body_pass (ignore : Bool) (p : Pass) (s : Session) (hw : well_formed p)
    (hr : int_wrap s.read = s.read) :
    (loop_body ignore p s).1 = leaves p ∧
      (loop_body ignore p s).2.state =
        (print_bytes s.state (byte_filter ignore (delivered p))).1 ∧
      (loop_body ignore p s).2.stdout =
        s.stdout ++ (print_bytes s.state (byte_filter ignore (delivered p))).2 ∧
      (loop_body ignore p s).2.read =
        int_wrap (s.read + (byte_filter ignore (delivered p)).length) := by
  have hnil : byte_filter ignore [] = [] := by unfold byte_filter; cases ignore <;> rfl
  by_cases hreads : reads p = true
  · have hrc : reads_chunk p := by
      obtain ⟨hb, hfit⟩ := hw hreads
      unfold reads at hreads
      simp only [Bool.and_eq_true, Bool.not_eq_true', decide_eq_true_eq] at hreads
      obtain ⟨⟨⟨⟨⟨c1, c2⟩, c3⟩, c4⟩, c5⟩, c6⟩ := hreads
      exact ⟨c1, c2, c3, c4, c5, c6, hfit, hb⟩
    have hl : leaves p = false := by
      cases h : leaves p
      · rfl
      · rw [leaves_not_reads p h] at hreads
        exact absurd hreads (by decide)
    obtain ⟨b1, b2, b3, b4, _⟩ := loop_body_reads ignore p s hrc hr
    have hd : delivered p = chunk p := by unfold delivered; rw [if_pos hreads]
    rw [hd, hl]
    exact ⟨b1, b2, b3, b4⟩
  · have hd : delivered p = [] := by unfold delivered; rw [if_neg hreads]
    rw [hd, hnil]
    simp only [print_bytes, String.append_empty, List.length_nil, Int.Nat.cast_ofNat_Int,
      Int.add_zero, hr]
    have hreads2 : reads p = false := by simpa using hreads
    unfold reads at hreads2
    unfold leaves loop_body
    by_cases h1 : p.stop = true
    · simp [h1]
    · have h1b : p.stop = false := by simpa using h1
      by_cases h2 : p.poll_ret < 0
      · by_cases h2e : p.errno = EINTR <;> simp [h1b, h2, h2e]
      · by_cases h3 : p.poll_ret = 0
        · simp [h1b, h3]
        · have h3b : 0 < p.poll_ret := by omega
          by_cases h4 : p.revents_ret < 0
          · simp [h1b, h2, h3, h3b, h4]
          · by_cases h5 : p.revents &&& (POLLERR ||| POLLHUP) = 0
            · by_cases h6 : p.revents &&& POLLIN = 0
              · simp [h1b, h2, h3, h3b, h4, h5, h6]
              · by_cases h7 : p.read_ret = -EAGAIN
                · simp [h1b, h2, h3, h3b, h4, h5, h6, h7]
                · have h4b : 0 ≤ p.revents_ret := by omega
                  have h8 : p.read_ret < 0 := by
                    simp only [h1b, h3b, h4b, h5] at hreads2
                    have h8b : ¬ p.revents &&& POLLIN = 0 → p.read_ret < 0 := by
                      simpa using hreads2
                    exact h8b h6
                  simp [h1b, h2, h3, h3b, h4, h5, h6, h7, h8]
            · simp [h1b, h2, h3, h3b, h4, h5]

/-- The loop over any passes: it has left exactly when one of the passes
leaves, and `state`, `stdout` and `read` are those of feeding the filtered
stream of the session to `print_byte`; passes that read nothing change none
of them. -/
theorem for_loop_run (ignore : Bool) (ps : List Pass) :
    ∀ (s : Session), (∀ p ∈ ps, well_formed p) → int_wrap s.read = s.read →
      (for_loop ignore ps s).1 = ps.any leaves ∧
        (for_loop ignore ps s).2.state =
          (print_bytes s.state (byte_filter ignore (stream ps))).1 ∧
        (for_loop ignore ps s).2.stdout =
          s.stdout ++ (print_bytes s.state (byte_filter ignore (stream ps))).2 ∧
        (for_loop ignore ps s).2.read =
          int_wrap (s.read + (byte_filter ignore (stream ps)).length) := by
  have hnil : byte_filter ignore [] = [] := by unfold byte_filter; cases ignore <;> rfl
  induction ps with
  | nil =>
    intro s _ hr
    simp [for_loop, stream, executed, hnil, print_bytes, hr]
  | cons p ps ih =>
    intro s hps hr
    have hp := hps p (List.mem_cons_self _ _)
    have hrest : ∀ q ∈ ps, well_formed q := fun q hq => hps q (List.mem_cons_of_mem _ hq)
    obtain ⟨b1, b2, b3, b4⟩ := loop_body_pass ignore p s hp hr
    rw [stream_cons]
    by_cases hl : leaves p = true
    · have hd : delivered p = [] := by
        unfold delivered; rw [leaves_not_reads p hl]; rfl
      rw [hd, hnil] at b2 b3 b4
      simp only [for_loop, b1, hl, if_true, List.any_cons, Bool.true_or, hnil]
      exact ⟨trivial, b2, b3, b4⟩
    · have hl2 : leaves p = false := by simpa using hl
      have hr2 : int_wrap (loop_body ignore p s).2.read = (loop_body ignore p s).2.read := by
        rw [b4]
        exact int_wrap_of_range _ (int_wrap_range _).1 (int_wrap_range _).2
      obtain ⟨c1, c2, c3, c4⟩ := ih (loop_body ignore p s).2 hrest hr2
      simp only [for_loop, b1, hl2, Bool.false_eq_true, if_false, List.any_cons, Bool.false_or,
        byte_filter_append, print_bytes_append, List.length_append]
      refine ⟨c1, ?_, ?_, ?_⟩
      · rw [c2, b2]
      · rw [c3, b3, b2, String.append_assoc]
      · rw [c4, b4, int_wrap_add]
        congr 1
        push_cast
        omega

/-- The values of `length` in the passes that read add up to the length of
the filtered stream. -/
theorem lengths_sum (ignore : Bool) (ps : List Pass) (hps : ∀ p ∈ ps, well_formed p) :
    (((executed ps).filter reads).map fun p =>
        (compact ignore p.read_ret.toNat 0 0 p.buf).1).sum =
      (byte_filter ignore (stream ps)).length := by
  have hnil : byte_filter ignore [] = [] := by unfold byte_filter; cases ignore <;> rfl
  induction ps with
  | nil => simp [executed, stream, hnil]
  | cons p ps ih =>
    have hp := hps p (List.mem_cons_self _ _)
    have hrest : ∀ q ∈ ps, well_formed q := fun q hq => hps q (List.mem_cons_of_mem _ hq)
    rw [stream_cons, executed_cons]
    by_cases hl : leaves p = true
    · simp [hl, hnil]
    · rw [if_neg hl, if_neg hl, byte_filter_append, List.length_append, ← ih hrest]
      by_cases hreads : reads p = true
      · have hc := compact_spec ignore p.buf p.read_ret.toNat (hp hreads).2
        rw [List.filter_cons_of_pos hreads, List.map_cons, List.sum_cons, hc.1]
        unfold delivered chunk
        rw [if_pos hreads]
      · rw [List.filter_cons_of_neg hreads]
        unfold delivered
        rw [if_neg hreads, hnil]
        simp

/-- A run over any passes, once the port is open: `main` returns when one of
the passes leaves the loop, with status 0 and what the loop has written,
followed on a terminal by the summary. -/
theorem main_run (ignore tty : Bool) (o : Int) (ps : List Pass) (ho : 0 ≤ o)
    (hps : ∀ p ∈ ps, well_formed p) :
    main ignore ⟨o, ps, tty⟩ =
      if ps.any leaves = true then
        some ⟨0,
          (if tty then
            (for_loop ignore ps session_start).2.stdout ++
              ("\n" ++ toString (for_loop ignore ps session_start).2.read ++ " bytes read\n")
          else (for_loop ignore ps session_start).2.stdout),
          (for_loop ignore ps session_start).2.stderr⟩
      else none := by
  have h := for_loop_run ignore ps session_start hps rfl
  have ho2 : ¬ o < 0 := by omega
  unfold main
  simp only [if_neg ho2, h.1]
  cases hany : ps.any leaves <;> cases tty <;> simp [lnot]

/-! ## The byte counter -/

theorem zero_pass_reads : reads_chunk (read_pass (List.replicate 256 0)) := by
  decide

theorem zero_pass_filtered :
    (byte_filter true (chunk (read_pass (List.replicate 256 0)))).length = 256 := by
  decide

theorem zero_passes_total (n : Nat) :
    (byte_filter true
      ((List.replicate n (read_pass (List.replicate 256 0))).map chunk).flatten).length =
      n * 256 := by
  induction n with
  | zero => rfl
  | succ n ih =>
    rw [List.replicate_succ, List.map_cons, List.flatten_cons, byte_filter_append,
      List.length_append, ih, zero_pass_filtered]
    omega

/-- C9, as stated, fails: after 8388608 passes that each read 256 zero bytes,
2147483648 bytes have been fed to `print_byte` and the `int` counter `read`
does not hold that number. -/
theorem read_counter_overflow :
    (∀ p ∈ List.replicate 8388608 (read_pass (List.replicate 256 0)), reads_chunk p) ∧
      (for_loop true (List.replicate 8388608 (read_pass (List.replicate 256 0)))
          session_start).2.read ≠
        ((byte_filter true
          ((List.replicate 8388608 (read_pass (List.replicate 256 0))).map
            chunk).flatten).length : Int) := by
  have hall : ∀ p ∈ List.replicate 8388608 (read_pass (List.replicate 256 0)),
      reads_chunk p := by
    intro p hp
    rw [List.eq_of_mem_replicate hp]
    exact zero_pass_reads
  refine ⟨hall, ?_⟩
  have h := (for_loop_reads true _ session_start hall rfl).2.2.2.1
  rw [h, zero_passes_total]
  have hr := int_wrap_range (session_start.read + ((8388608 * 256 : Nat) : Int))
  intro heq
  rw [heq] at hr
  have := hr.2
  norm_num at this


theorem reads_chunk_kind (p : Pass) (h : reads_chunk p) :
    reads p = true ∧ leaves p = false ∧ well_formed p := by
  obtain ⟨h1, h2, h3, h4, h5, h6, h7, h8⟩ := h
  have hr : reads p = true := by
    unfold reads
    simp [h1, h2, h3, h4, h5, h6]
  refine ⟨hr, ?_, fun _ => ⟨h8, h7⟩⟩
  cases hl : leaves p
  · rfl
  · rw [leaves_not_reads p hl] at hr
    exact absurd hr (by decide)

/-- When every pass reads a chunk, the stream of the session is the chunks one
after the other. -/
theorem stream_of_reads (ps : List Pass) (hps : ∀ p ∈ ps, reads_chunk p) :
    stream ps = (ps.map chunk).flatten := by
  induction ps with
  | nil => rfl
  | cons p ps ih =>
    have hp := reads_chunk_kind p (hps p (List.mem_cons_self _ _))
    have hrest : ∀ q ∈ ps, reads_chunk q := fun q hq => hps q (List.mem_cons_of_mem _ hq)
    rw [stream_cons, hp.2.1, ih hrest]
    simp [delivered, hp.1]

/-- C9, amended. Byte-count summary: in a session of any passes (timeouts,
nothing readable, would-block, chunks read, and whatever pass leaves the
loop), with fewer than 2147483648 bytes left after filtering in all, the
counter `read` is the number of bytes fed to `print_byte`, the sum of the
values of `length` of the passes that read: the number of bytes other than
0xFE with filtering on, the number of all bytes read with filtering off; and
once a pass leaves the loop, `main` on a terminal ends its output with that
number in the summary. -/
theorem read_counter_total (ignore : Bool) (o : Int) (ps : List Pass)
    (hps : ∀ p ∈ ps, well_formed p) (ho : 0 ≤ o)
    (hbound : (byte_filter ignore (stream ps)).length < 2147483648) :
    (for_loop ignore ps session_start).2.read =
        ((byte_filter ignore (stream ps)).length : Int) ∧
      (((executed ps).filter reads).map fun p =>
          (compact ignore p.read_ret.toNat 0 0 p.buf).1).sum =
        (byte_filter ignore (stream ps)).length ∧
      (for_loop ignore ps session_start).2.stdout =
        (print_bytes STATE_UNKNOWN (byte_filter ignore (stream ps))).2 ∧
      (ignore = true → (for_loop ignore ps session_start).2.read =
        (((stream ps).filter fun b => b != 0xfe).length : Int)) ∧
      (ignore = false → (for_loop ignore ps session_start).2.read =
        ((stream ps).length : Int)) ∧
      (ps.any leaves = true →
        main ignore ⟨o, ps, true⟩ =
          some ⟨0, (print_bytes STATE_UNKNOWN (byte_filter ignore (stream ps))).2 ++
            ("\n" ++ toString ((byte_filter ignore (stream ps)).length : Int) ++
              " bytes read\n"), (for_loop ignore ps session_start).2.stderr⟩) := by
  have h := for_loop_run ignore ps session_start hps rfl
  have hread : (for_loop ignore ps session_start).2.read =
      ((byte_filter ignore (stream ps)).length : Int) := by
    rw [h.2.2.2]
    have h0 : session_start.read = 0 := rfl
    rw [h0, Int.zero_add]
    exact int_wrap_of_range _ (by omega) (by omega)
  have hout : (for_loop ignore ps session_start).2.stdout =
      (print_bytes STATE_UNKNOWN (byte_filter ignore (stream ps))).2 := by
    rw [h.2.2.1]
    simp [session_start]
  refine ⟨hread, lengths_sum ignore ps hps, hout, ?_, ?_, ?_⟩
  · intro hi
    rw [hread, hi]
    rfl
  · intro hi
    rw [hread, hi]
    rfl
  · intro hany
    rw [main_run ignore true o ps ho hps, if_pos hany, hread, hout]
    simp

theorem read_counter_total_witness :
    (∀ p ∈ [read_pass [0x90, 0xFE, 0x40], ⟨false, 0, 0, 0, 0, 0, []⟩,
        ⟨false, 1, 0, 0, POLLIN, -11, []⟩, ⟨false, 1, 0, 0, 0, 0, []⟩, read_pass [0x7F],
        ⟨false, 1, 0, 0, POLLHUP, 0, []⟩], well_formed p) ∧
      (0 : Int) ≤ 0 ∧
      (byte_filter true (stream [read_pass [0x90, 0xFE, 0x40], ⟨false, 0, 0, 0, 0, 0, []⟩,
        ⟨false, 1, 0, 0, POLLIN, -11, []⟩, ⟨false, 1, 0, 0, 0, 0, []⟩, read_pass [0x7F],
        ⟨false, 1, 0, 0, POLLHUP, 0, []⟩])).length < 2147483648 ∧
      (for_loop true [read_pass [0x90, 0xFE, 0x40], ⟨false, 0, 0, 0, 0, 0, []⟩,
        ⟨false, 1, 0, 0, POLLIN, -11, []⟩, ⟨false, 1, 0, 0, 0, 0, []⟩, read_pass [0x7F],
        ⟨false, 1, 0, 0, POLLHUP, 0, []⟩] session_start).2.read = 3 ∧
      main true ⟨0, [read_pass [0x90, 0xFE, 0x40], ⟨false, 0, 0, 0, 0, 0, []⟩,
        ⟨false, 1, 0, 0, POLLIN, -11, []⟩, ⟨false, 1, 0, 0, 0, 0, []⟩, read_pass [0x7F],
        ⟨false, 1, 0, 0, POLLHUP, 0, []⟩], true⟩ =
        some ⟨0, "\n90 40 7F\n3 bytes read\n", []⟩ :=
  ⟨by decide, by decide, by decide,
    (read_counter_total true 0 [read_pass [0x90, 0xFE, 0x40], ⟨false, 0, 0, 0, 0, 0, []⟩,
        ⟨false, 1, 0, 0, POLLIN, -11, []⟩, ⟨false, 1, 0, 0, 0, 0, []⟩, read_pass [0x7F],
        ⟨false, 1, 0, 0, POLLHUP, 0, []⟩]
      (by decide) (by decide) (by decide)).1.trans (by decide),
    ((read_counter_total true 0 [read_pass [0x90, 0xFE, 0x40], ⟨false, 0, 0, 0, 0, 0, []⟩,
        ⟨false, 1, 0, 0, POLLIN, -11, []⟩, ⟨false, 1, 0, 0, 0, 0, []⟩, read_pass [0x7F],
        ⟨false, 1, 0, 0, POLLHUP, 0, []⟩]
      (by decide) (by decide) (by decide)).2.2.2.2.2 (by decide)).trans (by decide)⟩

/-! ## Chunk boundaries -/

/-- C10. Chunk-boundary independence: in a session of any passes (chunks
read, with timeouts, passes that find nothing readable or would block in
between, and whatever pass leaves the loop), the text written and the state
reached are those of feeding the filtered stream, byte by byte, to
`print_byte` from STATE_UNKNOWN, so no pass of the loop resets the state; two
sessions with one stream, however it is cut into chunks, write the same text;
and with filtering on, the stream 0x90 0xFE 0x40 0x7F, however it is cut, is
written as 0x90 0x40 0x7F is. -/
theorem chunk_boundary_independent (ignore : Bool) (o : Int) (ps : List Pass)
    (hps : ∀ p ∈ ps, well_formed p) (ho : 0 ≤ o) :
    (for_loop ignore ps session_start).2.stdout =
        (print_bytes STATE_UNKNOWN (byte_filter ignore (stream ps))).2 ∧
      (for_loop ignore ps session_start).2.state =
        (print_bytes STATE_UNKNOWN (byte_filter ignore (stream ps))).1 ∧
      (ps.any leaves = true →
        main ignore ⟨o, ps, false⟩ =
          some ⟨0, (print_bytes STATE_UNKNOWN (byte_filter ignore (stream ps))).2,
            (for_loop ignore ps session_start).2.stderr⟩) ∧
      (∀ qs : List Pass, (∀ p ∈ qs, well_formed p) → stream qs = stream ps →
        (for_loop ignore qs session_start).2.stdout =
            (for_loop ignore ps session_start).2.stdout ∧
          (for_loop ignore qs session_start).2.state =
            (for_loop ignore ps session_start).2.state) ∧
      (ignore = true → stream ps = [0x90, 0xFE, 0x40, 0x7F] →
        (for_loop ignore ps session_start).2.stdout =
          (print_bytes STATE_UNKNOWN [0x90, 0x40, 0x7F]).2) ∧
      ((∀ p ∈ ps, reads_chunk p) →
        (for_loop ignore ps session_start).1 = false ∧
          stream ps = (ps.map chunk).flatten ∧
          (for_loop ignore ps session_start).2.stdout =
            (print_bytes STATE_UNKNOWN (byte_filter ignore (ps.map chunk).flatten)).2 ∧
          (for_loop ignore ps session_start).2.state =
            (print_bytes STATE_UNKNOWN (byte_filter ignore (ps.map chunk).flatten)).1) := by
  have h := for_loop_run ignore ps session_start hps rfl
  have hout : (for_loop ignore ps session_start).2.stdout =
      (print_bytes STATE_UNKNOWN (byte_filter ignore (stream ps))).2 := by
    rw [h.2.2.1]
    simp [session_start]
  have hst : (for_loop ignore ps session_start).2.state =
      (print_bytes STATE_UNKNOWN (byte_filter ignore (stream ps))).1 := by
    rw [h.2.1]
    rfl
  refine ⟨hout, hst, ?_, ?_, ?_, ?_⟩
  · intro hany
    rw [main_run ignore false o ps ho hps, if_pos hany, hout]
    simp
  · intro qs hqs heq
    have h2 := for_loop_run ignore qs session_start hqs rfl
    rw [h2.2.2.1, h2.2.1, h.2.2.1, h.2.1, heq]
    exact ⟨rfl, rfl⟩
  · intro hi heq
    rw [hout, heq, hi]
    rfl
  · intro hrc
    have hs := stream_of_reads ps hrc
    have hr := for_loop_reads ignore ps session_start hrc rfl
    rw [← hs]
    exact ⟨hr.1, rfl, hout, hst⟩

theorem chunk_boundary_independent_witness :
    (∀ p ∈ [read_pass [0x90], ⟨false, 0, 0, 0, 0, 0, []⟩, read_pass [0xFE],
        ⟨false, 1, 0, 0, POLLIN, -11, []⟩, ⟨false, 1, 0, 0, 0, 0, []⟩,
        read_pass [0x40, 0x7F], ⟨true, 0, 0, 0, 0, 0, []⟩], well_formed p) ∧
      (0 : Int) ≤ 0 ∧
      (for_loop true [read_pass [0x90], ⟨false, 0, 0, 0, 0, 0, []⟩, read_pass [0xFE],
        ⟨false, 1, 0, 0, POLLIN, -11, []⟩, ⟨false, 1, 0, 0, 0, 0, []⟩,
        read_pass [0x40, 0x7F], ⟨true, 0, 0, 0, 0, 0, []⟩] session_start).2.stdout =
          "\n90 40 7F" ∧
      main true ⟨0, [read_pass [0x90], ⟨false, 0, 0, 0, 0, 0, []⟩, read_pass [0xFE],
        ⟨false, 1, 0, 0, POLLIN, -11, []⟩, ⟨false, 1, 0, 0, 0, 0, []⟩,
        read_pass [0x40, 0x7F], ⟨true, 0, 0, 0, 0, 0, []⟩], false⟩ =
          some ⟨0, "\n90 40 7F", []⟩ :=
  ⟨by decide, by decide,
    (chunk_boundary_independent true 0 [read_pass [0x90], ⟨false, 0, 0, 0, 0, 0, []⟩,
        read_pass [0xFE], ⟨false, 1, 0, 0, POLLIN, -11, []⟩, ⟨false, 1, 0, 0, 0, 0, []⟩,
        read_pass [0x40, 0x7F], ⟨true, 0, 0, 0, 0, 0, []⟩]
      (by decide) (by decide)).1.trans (by decide),
    ((chunk_boundary_independent true 0 [read_pass [0x90], ⟨false, 0, 0, 0, 0, 0, []⟩,
        read_pass [0xFE], ⟨false, 1, 0, 0, POLLIN, -11, []⟩, ⟨false, 1, 0, 0, 0, 0, []⟩,
        read_pass [0x40, 0x7F], ⟨true, 0, 0, 0, 0, 0, []⟩]
      (by decide) (by decide)).2.2.1 (by decide)).trans (by decide)⟩

end Protosampler
